import Mathlib

/-!
Verification development for the DCmotor repository (src/lib/dcMotor.py and
src/main.py). The module dcMotor.py implements a non-blocking DC motor
controller for MicroPython: a pure duty-cycle mapping function, immediate
actuation primitives (run, rotate, reverseRotation, brake) and three polled
timed operations (runFor, waitFor, accelerate).

Modelling choices, stated once here:
- The hardware pins and the PWM duty register are modelled as integer fields
  of an explicit MotorState record; every method of the Python class becomes
  a state-passing function.
- The MicroPython millisecond counter ticks_ms is read fresh on every call in
  the source; all reads that happen inside one single call occur within the
  same millisecond and are modelled by one explicit parameter now. The Python
  subtraction ticks_ms() - self._msPrevious is plain integer subtraction
  (not ticks_diff), and is modelled as plain subtraction on Int.
- Python float arithmetic inside the map function is modelled as exact
  rational arithmetic; math.trunc is truncation toward zero. The source
  applies map only to integer speeds and integer duty bounds, so its
  arguments are modelled as integers.
- Calls to self.run and self.brake are recorded in an event log field so that
  statements such as "brake is called exactly once" are expressible.
-/

namespace DCmotor

/-- Direction constant from the source: CCW = const(0). -/
def CCW : ℤ := 0

/-- Direction constant from the source: CW = const(1). -/
def CW : ℤ := 1

/-- PWMRESOLUTIONBITS = const(10) from the source. -/
def PWMRESOLUTIONBITS : ℕ := 10

/-- Truncation toward zero on rationals: the semantics of Python math.trunc
applied to an exact rational value. -/
def ratTrunc (y : ℚ) : ℤ := if 0 ≤ y then ⌊y⌋ else ⌈y⌉

/-- The module-level map function of dcMotor.py:
  m = (outMax - outMin)/(inMax - inMin); q = outMax - m * inMax;
  return trunc(m * x + q + 0.5).
Python float arithmetic is modelled as exact rational arithmetic. Python
raises ZeroDivisionError when inMax = inMin; the Lean model is total and
returns a junk value there (division by zero is zero), a case no claim uses. -/
def map (x inMin inMax outMin outMax : ℤ) : ℤ :=
  let m : ℚ := ((outMax : ℚ) - (outMin : ℚ)) / ((inMax : ℚ) - (inMin : ℚ))
  let q : ℚ := (outMax : ℚ) - m * (inMax : ℚ)
  ratTrunc (m * (x : ℚ) + q + 1/2)

/-- Modelled from the spec words only, for refinement comparison with map:
result = round-half-up of m * x + q, where round-half-up y = floor (y + 1/2). -/
def specMap (x inMin inMax outMin outMax : ℤ) : ℤ :=
  let m : ℚ := ((outMax : ℚ) - (outMin : ℚ)) / ((inMax : ℚ) - (inMin : ℚ))
  let q : ℚ := (outMax : ℚ) - m * (inMax : ℚ)
  ⌊m * (x : ℚ) + q + 1/2⌋

/-- Observable actuation events: an invocation of run (with its speed
argument) or of brake. -/
inductive Event where
  | runEv (speed : ℤ)
  | brakeEv
deriving DecidableEq

/-- The mutable state of one DCmotor instance, one field per attribute of the
Python object, plus the event log of run/brake invocations (newest first). -/
structure MotorState where
  motorId : ℤ
  pin1 : ℤ
  pin2 : ℤ
  duty : ℤ
  rotation : ℤ
  dutyMin : ℤ
  dutyMax : ℤ
  firstRun : Bool
  msPrevious : ℤ
  accelMode : ℤ
  sp : ℤ
  log : List Event
deriving DecidableEq

/-- The constructor of DCmotor: duty 0, pin1 high and pin2 low (rotate CW),
rotation = CW, dutyMax = (1 << PWMRESOLUTIONBITS) - 1, dutyMin = 0,
firstRun = True, msPrevious = 0, accelMode = 0, sp = 0. -/
def init (motorId : ℤ) : MotorState :=
  { motorId := motorId
    pin1 := 1
    pin2 := 0
    duty := 0
    rotation := CW
    dutyMin := 0
    dutyMax := 2 ^ PWMRESOLUTIONBITS - 1
    firstRun := true
    msPrevious := 0
    accelMode := 0
    sp := 0
    log := [] }

/-- Method rotate: if direction == CW set pin1 high, pin2 low and store CW;
else set pin1 low, pin2 high and store CCW. -/
def rotate (s : MotorState) (direction : ℤ) : MotorState :=
  if direction = CW then
    { s with pin1 := 1, pin2 := 0, rotation := CW }
  else
    { s with pin1 := 0, pin2 := 1, rotation := CCW }

/-- Method run: duty = map(speed, 0, 100, dutyMin, dutyMax); write the duty;
then rotate(rotation). The invocation is recorded in the log. -/
def run (s : MotorState) (speed : ℤ) : MotorState :=
  let s1 := { s with duty := map speed 0 100 s.dutyMin s.dutyMax,
                     log := Event.runEv speed :: s.log }
  rotate s1 s1.rotation

/-- Method brake: both pins low and duty 0. The invocation is recorded in the
log. -/
def brake (s : MotorState) : MotorState :=
  { s with pin1 := 0, pin2 := 0, duty := 0, log := Event.brakeEv :: s.log }

/-- Method reverseRotation: rotation = CW if rotation == CCW else CCW. -/
def reverseRotation (s : MotorState) : MotorState :=
  { s with rotation := if s.rotation = CCW then CW else CCW }

/-- Method runFor(speed, msToRun). The parameter now is the ticks_ms reading
of this call. Returns the new state and the Boolean result (the value of
firstRun after the call, as the source returns self._firstRun). -/
def runFor (s : MotorState) (now speed msToRun : ℤ) : MotorState × Bool :=
  let s1 := if s.firstRun then { s with msPrevious := now, firstRun := false } else s
  let s2 := if speed ≥ 0 then run s1 speed else s1
  let s3 := if now - s2.msPrevious > msToRun
            then { brake s2 with firstRun := true }
            else s2
  (s3, s3.firstRun)

/-- Method waitFor(msToWait). On the first call of a cycle: brake, record the
anchor, clear firstRun. Rearms once now - msPrevious > msToWait. -/
def waitFor (s : MotorState) (now msToWait : ℤ) : MotorState × Bool :=
  let s1 := if s.firstRun
            then { brake s with msPrevious := now, firstRun := false }
            else s
  let s2 := if now - s1.msPrevious > msToWait then { s1 with firstRun := true } else s1
  (s2, s2.firstRun)

/-- Method accelerate(speedFrom, speedTo, msWait). The init block of the
source sets accelMode by three consecutive if statements whose conditions are
mutually exclusive; they are transliterated as three nested conditionals
applied in the same order. The three mode blocks of the source are sequential
if statements, but the mode is not changed between them, so at most one block
runs and the translation as an if/else chain (falling through to the final
return False) is exact. -/
def accelerate (s : MotorState) (now speedFrom speedTo msWait : ℤ) :
    MotorState × Bool :=
  let s1 :=
    if s.firstRun then
      let m0 := if speedFrom < speedTo then 0 else s.accelMode
      let m1 := if speedFrom > speedTo then 1 else m0
      let m2 := if speedFrom = speedTo then 2 else m1
      { s with sp := speedFrom, msPrevious := now, accelMode := m2,
               firstRun := false }
    else s
  let s2 := run s1 s1.sp
  if s2.accelMode = 0 then
    if s2.sp ≤ speedTo then
      if now - s2.msPrevious > msWait then
        ({ s2 with msPrevious := now, sp := s2.sp + 1 }, false)
      else (s2, false)
    else ({ s2 with firstRun := true }, true)
  else if s2.accelMode = 1 then
    if s2.sp ≥ speedTo then
      if now - s2.msPrevious > msWait then
        ({ s2 with msPrevious := now, sp := s2.sp - 1 }, false)
      else (s2, false)
    else ({ s2 with firstRun := true }, true)
  else if s2.accelMode = 2 then
    ({ s2 with firstRun := false }, true)
  else (s2, false)

/-- Poll accelerate once per entry of the list of ticks_ms readings,
discarding the Boolean results: the state after a sequence of calls. -/
def pollAccel (s : MotorState) (ts : List ℤ) (speedFrom speedTo msWait : ℤ) :
    MotorState :=
  match ts with
  | [] => s
  | t :: rest => pollAccel (accelerate s t speedFrom speedTo msWait).1 rest speedFrom speedTo msWait

/-- The anchor timestamp a timed operation compares against during one call:
now when the call is the first of a cycle, the stored msPrevious otherwise. -/
def anchorOf (s : MotorState) (now : ℤ) : ℤ :=
  if s.firstRun then now else s.msPrevious

/-- The ramp speed accelerate actuates during one call: speedFrom when the
call is the first of a cycle, the stored sp otherwise. -/
def rampStart (s : MotorState) (speedFrom : ℤ) : ℤ :=
  if s.firstRun then speedFrom else s.sp

/-- Checks that every event of a log is a run invocation whose speed lies
between lo and hi. -/
def rampLogOk (lo hi : ℤ) : List Event → Bool
  | [] => true
  | Event.runEv v :: es => decide (lo ≤ v) && decide (v ≤ hi) && rampLogOk lo hi es
  | Event.brakeEv :: _ => false

/-- Invariant of an increasing accelerate cycle with endpoints a < b: either
the motor is armed, or it is mid-cycle in mode 0 with ramp speed between a
and b + 1. -/
def rampInv (a b : ℤ) (s : MotorState) : Prop :=
  s.firstRun = true ∨ (s.accelMode = 0 ∧ a ≤ s.sp ∧ s.sp ≤ b + 1)

/-- A motor mid-cycle whose anchor timestamp 2^30 - 100 was recorded just
before the 30-bit MicroPython tick counter wraps around. -/
def wrapAnchorState : MotorState :=
  { init 0 with firstRun := false, msPrevious := 2 ^ 30 - 100 }

/-- A motor mid-cycle in an increasing ramp (mode 0, ramp speed 5) whose
anchor timestamp 2^30 - 100 was recorded just before the 30-bit counter
wraps around. -/
def wrapAnchorRampState : MotorState :=
  { init 0 with firstRun := false, accelMode := 0, sp := 5,
                msPrevious := 2 ^ 30 - 100 }

/-! Projection lemmas for the actuation primitives, shared by the proofs of
the timed-operation theorems. -/

@[simp]
theorem run_log (s : MotorState) (v : ℤ) : (run s v).log = Event.runEv v :: s.log := by
  unfold run rotate
  dsimp only
  split <;> rfl

@[simp]
theorem run_msPrevious (s : MotorState) (v : ℤ) : (run s v).msPrevious = s.msPrevious := by
  unfold run rotate
  dsimp only
  split <;> rfl

@[simp]
theorem run_firstRun (s : MotorState) (v : ℤ) : (run s v).firstRun = s.firstRun := by
  unfold run rotate
  dsimp only
  split <;> rfl

@[simp]
theorem run_accelMode (s : MotorState) (v : ℤ) : (run s v).accelMode = s.accelMode := by
  unfold run rotate
  dsimp only
  split <;> rfl

@[simp]
theorem run_sp (s : MotorState) (v : ℤ) : (run s v).sp = s.sp := by
  unfold run rotate
  dsimp only
  split <;> rfl

/-- C10: for every direction argument d, rotate asserts exactly one of the
two direction pins: d = CW gives pin1 high, pin2 low and stores rotation CW;
every other d, including values that are neither CW nor CCW, gives pin1 low,
pin2 high and stores rotation CCW. No argument is rejected. -/
theorem rotate_exclusive_pins (s : MotorState) (d : ℤ) :
    (d = CW →
      (rotate s d).pin1 = 1 ∧ (rotate s d).pin2 = 0 ∧ (rotate s d).rotation = CW)
    ∧ (d ≠ CW →
      (rotate s d).pin1 = 0 ∧ (rotate s d).pin2 = 1 ∧ (rotate s d).rotation = CCW) := by
  constructor
  · intro h
    simp [rotate, h]
  · intro h
    simp [rotate, h]

/-- Witness for C10 at the direction argument 7, which is neither CW nor
CCW: the pins take the CCW pattern. -/
theorem rotate_exclusive_pins_witness :
    (rotate (init 0) 7).pin1 = 0 ∧ (rotate (init 0) 7).pin2 = 1
      ∧ (rotate (init 0) 7).rotation = CCW :=
  (rotate_exclusive_pins (init 0) 7).2 (by decide)

/-- C9: reverseRotation changes only the stored rotation field, flipping CW
to CCW and CCW to CW; it leaves both direction pins, the PWM duty and every
other field unchanged, and the flipped direction reaches the pins only via a
subsequent run (or rotate) call. -/
theorem reverseRotation_frame (s : MotorState) (speed : ℤ) :
    (reverseRotation s).pin1 = s.pin1 ∧ (reverseRotation s).pin2 = s.pin2
    ∧ (reverseRotation s).duty = s.duty ∧ (reverseRotation s).log = s.log
    ∧ (reverseRotation s).motorId = s.motorId ∧ (reverseRotation s).dutyMin = s.dutyMin
    ∧ (reverseRotation s).dutyMax = s.dutyMax ∧ (reverseRotation s).firstRun = s.firstRun
    ∧ (reverseRotation s).msPrevious = s.msPrevious
    ∧ (reverseRotation s).accelMode = s.accelMode ∧ (reverseRotation s).sp = s.sp
    ∧ (s.rotation = CW → (reverseRotation s).rotation = CCW)
    ∧ (s.rotation = CCW → (reverseRotation s).rotation = CW)
    ∧ (s.rotation = CW →
        (run (reverseRotation s) speed).pin1 = 0 ∧ (run (reverseRotation s) speed).pin2 = 1)
    ∧ (s.rotation = CCW →
        (run (reverseRotation s) speed).pin1 = 1 ∧ (run (reverseRotation s) speed).pin2 = 0) := by
  refine ⟨rfl, rfl, rfl, rfl, rfl, rfl, rfl, rfl, rfl, rfl, rfl, ?_, ?_, ?_, ?_⟩
  · intro h
    simp [reverseRotation, h, CW, CCW]
  · intro h
    simp [reverseRotation, h]
  · intro h
    simp [run, rotate, reverseRotation, h, CW, CCW]
  · intro h
    simp [run, rotate, reverseRotation, h, CW, CCW]

/-- Witness for C9 at a freshly constructed motor, whose rotation is CW:
after reverseRotation the pins still hold the construction pattern, and the
next run call drives them to the CCW pattern. -/
theorem reverseRotation_frame_witness :
    (reverseRotation (init 0)).pin1 = (init 0).pin1
      ∧ (run (reverseRotation (init 0)) 50).pin1 = 0
      ∧ (run (reverseRotation (init 0)) 50).pin2 = 1 := by
  obtain ⟨h1, -, -, -, -, -, -, -, -, -, -, -, -, h14, -⟩ :=
    reverseRotation_frame (init 0) 50
  exact ⟨h1, h14 (by decide)⟩

/-- C4: full characterization of one runFor call. The anchor is recorded on
the first call of a cycle and kept otherwise; run(speed) is invoked exactly
when speed is nonnegative (a negative speed is the do-not-reactuate
sentinel); the call returns true exactly when the elapsed time now - anchor
is strictly greater than msToRun, and then the motor has been braked (both
pins low, duty 0) and the armed flag set back, so the next call starts a
fresh cycle; otherwise it returns false. -/
theorem runFor_step (s : MotorState) (now speed msToRun : ℤ) :
    (runFor s now speed msToRun).1.msPrevious = anchorOf s now
    ∧ (runFor s now speed msToRun).1.log =
        (if now - anchorOf s now > msToRun then [Event.brakeEv] else [])
          ++ (if speed ≥ 0 then [Event.runEv speed] else []) ++ s.log
    ∧ ((runFor s now speed msToRun).2 = true ↔ now - anchorOf s now > msToRun)
    ∧ (runFor s now speed msToRun).1.firstRun = (runFor s now speed msToRun).2
    ∧ (now - anchorOf s now > msToRun →
        (runFor s now speed msToRun).1.pin1 = 0
          ∧ (runFor s now speed msToRun).1.pin2 = 0
          ∧ (runFor s now speed msToRun).1.duty = 0) := by
  unfold runFor anchorOf
  dsimp only
  cases hf : s.firstRun <;>
    by_cases hsp : speed ≥ 0 <;>
      simp only [hf, hsp, if_true, if_false, Bool.false_eq_true, ite_true, ite_false,
        run_msPrevious, run_log, run_firstRun] <;>
      split_ifs with ht <;>
      simp_all [brake]

/-- Witness for C4: a fresh motor, a call at time 0 with the negative
sentinel speed and a negative duration completes at once: no run event, one
brake event, result true. -/
theorem runFor_step_witness :
    (runFor (init 0) 0 (-1) (-1)).1.log = [Event.brakeEv]
      ∧ ((runFor (init 0) 0 (-1) (-1)).2 = true ↔ (0 : ℤ) - anchorOf (init 0) 0 > -1)
      ∧ (runFor (init 0) 0 (-1) (-1)).1.pin1 = 0 := by
  obtain ⟨-, h2, h3, -, h5⟩ := runFor_step (init 0) 0 (-1) (-1)
  refine ⟨?_, h3, (h5 (by decide)).1⟩
  simpa [init, anchorOf] using h2

/-- C6: full characterization of one waitFor call. brake is invoked exactly
on the first call of a cycle (the log grows by one brake event then, by
nothing on later calls of the cycle), the anchor is recorded at that first
call, and the call returns true exactly when now - anchor is strictly
greater than msToWait, simultaneously rearming for the next cycle. -/
theorem waitFor_step (s : MotorState) (now msToWait : ℤ) :
    (waitFor s now msToWait).1.msPrevious = anchorOf s now
    ∧ (waitFor s now msToWait).1.log =
        (if s.firstRun then [Event.brakeEv] else []) ++ s.log
    ∧ ((waitFor s now msToWait).2 = true ↔ now - anchorOf s now > msToWait)
    ∧ (waitFor s now msToWait).1.firstRun = (waitFor s now msToWait).2
    ∧ (s.firstRun = true →
        (waitFor s now msToWait).1.pin1 = 0
          ∧ (waitFor s now msToWait).1.pin2 = 0
          ∧ (waitFor s now msToWait).1.duty = 0) := by
  unfold waitFor anchorOf
  dsimp only
  cases hf : s.firstRun <;>
    simp only [hf, if_true, if_false, Bool.false_eq_true, ite_true, ite_false] <;>
    split_ifs with ht <;>
    simp_all [brake]

/-- Witness for C6: a fresh motor, a call at time 0 with msToWait = 500:
the motor is braked, the anchor recorded, and the call returns false. -/
theorem waitFor_step_witness :
    (waitFor (init 0) 0 500).1.log = [Event.brakeEv]
      ∧ (waitFor (init 0) 0 500).2 = false
      ∧ (waitFor (init 0) 0 500).1.pin1 = 0 := by
  obtain ⟨-, h2, h3, -, h5⟩ := waitFor_step (init 0) 0 500
  refine ⟨?_, ?_, (h5 (by decide)).1⟩
  · simpa [init] using h2
  · cases hr : (waitFor (init 0) 0 500).2
    · rfl
    · exact absurd (h3.mp hr) (by simp [init, anchorOf])

/-- Counterexample to C1 as stated: accelerate in CONSTANT mode (equal speed
endpoints) returns true on its very first call but sets the armed flag to
false, not back to true, so the motor is left unarmed. -/
theorem accelerate_constant_not_rearmed :
    (accelerate (init 0) 0 50 50 10).2 = true
      ∧ (accelerate (init 0) 0 50 50 10).1.firstRun = false := by
  constructor <;> decide

/-- C1 amended: runFor and waitFor always rearm when they return true, and
accelerate rearms when it returns true provided the cycle is not in CONSTANT
mode (started with distinct speed endpoints, or mid-cycle with a stored mode
other than 2); accelerate with equal endpoints returns true on its very
first call but leaves the armed flag false instead of rearming. -/
theorem timedOps_rearm_on_true (s : MotorState) (now speed msToRun msToWait a b c w : ℤ)
    (h1 : s.firstRun = true → a ≠ b)
    (h2 : s.firstRun = false → s.accelMode ≠ 2) :
    ((runFor s now speed msToRun).2 = true →
      (runFor s now speed msToRun).1.firstRun = true)
    ∧ ((waitFor s now msToWait).2 = true →
      (waitFor s now msToWait).1.firstRun = true)
    ∧ ((accelerate s now a b w).2 = true →
      (accelerate s now a b w).1.firstRun = true)
    ∧ (s.firstRun = true →
      (accelerate s now c c w).2 = true
        ∧ (accelerate s now c c w).1.firstRun = false) := by
  refine ⟨fun h => h, fun h => h, ?_, ?_⟩
  · unfold accelerate
    dsimp only
    cases hf : s.firstRun
    · have hm := h2 hf
      simp only [Bool.false_eq_true, if_false, ite_false, run_accelMode, run_sp,
        run_msPrevious, run_firstRun]
      split_ifs <;> simp_all
    · have hab := h1 hf
      by_cases hlt : a < b <;>
        simp only [hf, if_true, ite_true, run_accelMode, run_sp, run_msPrevious,
          run_firstRun] <;>
        split_ifs <;> simp_all <;> omega
  · intro hf
    unfold accelerate
    simp only [hf, if_true, ite_true, lt_irrefl, if_false, ite_false]
    simp [run_accelMode]

/-- Witness for C1 amended: a fresh motor (armed, stored mode 0) with equal
ramp endpoints 5 and 5: the first accelerate call returns true and leaves
the armed flag false. -/
theorem timedOps_rearm_on_true_witness :
    (accelerate (init 0) 0 5 5 10).2 = true
      ∧ (accelerate (init 0) 0 5 5 10).1.firstRun = false := by
  have h := timedOps_rearm_on_true (init 0) 0 0 0 0 0 1 5 10
    (fun _ => by decide) (fun hc => by simp [init] at hc)
  exact h.2.2.2 (by decide)

/-- C5: characterization of one accelerate call in a ramping cycle. In an
increasing cycle (first call with speedFrom < speedTo, or mid-cycle with
stored mode 0), run(rampSpeed) is invoked first on every call (the log grows
by exactly that one event); while rampSpeed is at most speedTo the call
returns false, stepping rampSpeed by exactly 1 and resetting the anchor to
now exactly when now - anchor is strictly greater than msWait; once
rampSpeed exceeds speedTo the call returns true without stepping and
rearms. The decreasing cycle (speedFrom > speedTo, mode 1) is symmetric,
stepping by -1 and completing once rampSpeed falls below speedTo. -/
theorem accelerate_ramp_step (s : MotorState) (now a b w : ℤ) :
    (((s.firstRun = true ∧ a < b) ∨ (s.firstRun = false ∧ s.accelMode = 0)) →
      (accelerate s now a b w).1.log = Event.runEv (rampStart s a) :: s.log
      ∧ (rampStart s a ≤ b → now - anchorOf s now > w →
          (accelerate s now a b w).1.sp = rampStart s a + 1
            ∧ (accelerate s now a b w).1.msPrevious = now
            ∧ (accelerate s now a b w).2 = false)
      ∧ (rampStart s a ≤ b → ¬(now - anchorOf s now > w) →
          (accelerate s now a b w).1.sp = rampStart s a
            ∧ (accelerate s now a b w).1.msPrevious = anchorOf s now
            ∧ (accelerate s now a b w).2 = false)
      ∧ (b < rampStart s a →
          (accelerate s now a b w).2 = true
            ∧ (accelerate s now a b w).1.firstRun = true
            ∧ (accelerate s now a b w).1.sp = rampStart s a))
    ∧ (((s.firstRun = true ∧ b < a) ∨ (s.firstRun = false ∧ s.accelMode = 1)) →
      (accelerate s now a b w).1.log = Event.runEv (rampStart s a) :: s.log
      ∧ (b ≤ rampStart s a → now - anchorOf s now > w →
          (accelerate s now a b w).1.sp = rampStart s a - 1
            ∧ (accelerate s now a b w).1.msPrevious = now
            ∧ (accelerate s now a b w).2 = false)
      ∧ (b ≤ rampStart s a → ¬(now - anchorOf s now > w) →
          (accelerate s now a b w).1.sp = rampStart s a
            ∧ (accelerate s now a b w).1.msPrevious = anchorOf s now
            ∧ (accelerate s now a b w).2 = false)
      ∧ (rampStart s a < b →
          (accelerate s now a b w).2 = true
            ∧ (accelerate s now a b w).1.firstRun = true
            ∧ (accelerate s now a b w).1.sp = rampStart s a)) := by
  constructor
  · rintro (⟨hf, hab⟩ | ⟨hf, hm⟩)
    · unfold accelerate rampStart anchorOf
      simp only [hf, ite_true, if_pos hab, if_neg (ne_of_lt hab), if_neg (lt_asymm hab),
        run_accelMode, run_sp, run_msPrevious, run_log, Int.reduceEq, reduceIte]
      refine ⟨by split_ifs <;> simp [run_log], fun hsp hta => ?_, fun hsp hta => ?_,
        fun hgt => ?_⟩
      · rw [if_pos hsp, if_pos hta]
        exact ⟨rfl, rfl, rfl⟩
      · rw [if_pos hsp, if_neg hta]
        exact ⟨by simp [run_sp], by simp [run_msPrevious], rfl⟩
      · rw [if_neg (not_le.mpr hgt)]
        exact ⟨rfl, rfl, by simp [run_sp]⟩
    · unfold accelerate rampStart anchorOf
      simp only [hf, Bool.false_eq_true, ite_false, run_accelMode, run_sp,
        run_msPrevious, run_log, hm, Int.reduceEq, reduceIte]
      refine ⟨by split_ifs <;> simp [run_log], fun hsp hta => ?_, fun hsp hta => ?_,
        fun hgt => ?_⟩
      · rw [if_pos hsp, if_pos hta]
        exact ⟨rfl, rfl, rfl⟩
      · rw [if_pos hsp, if_neg hta]
        exact ⟨by simp [run_sp], by simp [run_msPrevious], rfl⟩
      · rw [if_neg (not_le.mpr hgt)]
        exact ⟨rfl, rfl, by simp [run_sp]⟩
  · rintro (⟨hf, hab⟩ | ⟨hf, hm⟩)
    · unfold accelerate rampStart anchorOf
      simp only [hf, ite_true, if_pos hab, if_neg (ne_of_gt hab), if_neg (lt_asymm hab),
        run_accelMode, run_sp, run_msPrevious, run_log, Int.reduceEq, reduceIte]
      refine ⟨by split_ifs <;> simp [run_log], fun hsp hta => ?_, fun hsp hta => ?_,
        fun hlt => ?_⟩
      · rw [if_pos hsp, if_pos hta]
        exact ⟨rfl, rfl, rfl⟩
      · rw [if_pos hsp, if_neg hta]
        exact ⟨by simp [run_sp], by simp [run_msPrevious], rfl⟩
      · rw [if_neg (not_le.mpr hlt)]
        exact ⟨rfl, rfl, by simp [run_sp]⟩
    · unfold accelerate rampStart anchorOf
      simp only [hf, Bool.false_eq_true, ite_false, run_accelMode, run_sp,
        run_msPrevious, run_log, hm, Int.reduceEq, reduceIte]
      refine ⟨by split_ifs <;> simp [run_log], fun hsp hta => ?_, fun hsp hta => ?_,
        fun hlt => ?_⟩
      · rw [if_pos hsp, if_pos hta]
        exact ⟨rfl, rfl, rfl⟩
      · rw [if_pos hsp, if_neg hta]
        exact ⟨by simp [run_sp], by simp [run_msPrevious], rfl⟩
      · rw [if_neg (not_le.mpr hlt)]
        exact ⟨rfl, rfl, by simp [run_sp]⟩

/-- Witness for C5: a fresh motor, increasing cycle 0 to 2 with msWait = 10.
The first call at time 0 logs run(0) and does not step; a mid-cycle call at
time 11 steps the ramp speed to 1 and resets the anchor. -/
theorem accelerate_ramp_step_witness :
    (accelerate (init 0) 0 0 2 10).1.log = [Event.runEv 0]
      ∧ (accelerate (init 0) 0 0 2 10).1.sp = 0
      ∧ (accelerate { init 0 with firstRun := false, accelMode := 0 } 11 0 2 10).1.sp = 1
      ∧ (accelerate { init 0 with firstRun := false, accelMode := 0 } 11 0 2 10).1.msPrevious = 11 := by
  obtain ⟨hA, -⟩ := accelerate_ramp_step (init 0) 0 0 2 10
  obtain ⟨h1, -, h3, -⟩ := hA (Or.inl ⟨rfl, by decide⟩)
  obtain ⟨hB, -⟩ :=
    accelerate_ramp_step { init 0 with firstRun := false, accelMode := 0 } 11 0 2 10
  obtain ⟨-, h2, -, -⟩ := hB (Or.inr ⟨rfl, rfl⟩)
  refine ⟨by simpa [init, rampStart] using h1, ?_, ?_, ?_⟩
  · have := h3 (by simp [rampStart, init]) (by simp [anchorOf, init])
    simpa [rampStart, anchorOf, init] using this.1
  · have := h2 (by simp [rampStart, init]) (by simp [anchorOf, init])
    simpa [rampStart, init] using this.1
  · have := h2 (by simp [rampStart, init]) (by simp [anchorOf, init])
    exact this.2.1

/-- One accelerate call of an increasing cycle preserves the ramp invariant
and appends exactly one run event, whose speed lies between a and b + 1. -/
theorem accelerate_preserves_rampInv (a b w now : ℤ) (s : MotorState)
    (hab : a < b) (hinv : rampInv a b s) :
    rampInv a b (accelerate s now a b w).1
    ∧ ∃ v, a ≤ v ∧ v ≤ b + 1
        ∧ (accelerate s now a b w).1.log = Event.runEv v :: s.log := by
  by_cases hf : s.firstRun = true
  · unfold accelerate
    simp only [hf, ite_true, if_pos hab, if_neg (ne_of_lt hab), if_neg (lt_asymm hab),
      run_accelMode, run_sp, run_msPrevious, run_log, Int.reduceEq, reduceIte]
    rw [if_pos (le_of_lt hab)]
    split_ifs with ht
    · refine ⟨Or.inr ⟨rfl, ?_, ?_⟩, a, le_refl a, by omega, rfl⟩
      · dsimp only
        omega
      · dsimp only
        omega
    · refine ⟨Or.inr ⟨by simp [run_accelMode], by simp [run_sp], ?_⟩,
        a, le_refl a, by omega, by simp [run_log]⟩
      simp [run_sp]
      omega
  · rcases hinv with hf2 | ⟨hm, h1, h2⟩
    · exact absurd hf2 hf
    · have hf3 : s.firstRun = false := by
        cases hsf : s.firstRun
        · rfl
        · exact absurd hsf hf
      unfold accelerate
      simp only [hf3, Bool.false_eq_true, ite_false, run_accelMode, run_sp,
        run_msPrevious, run_log, hm, Int.reduceEq, reduceIte]
      split_ifs with hsp ht
      · refine ⟨Or.inr ⟨rfl, ?_, ?_⟩, s.sp, h1, h2, rfl⟩
        · dsimp only
          omega
        · dsimp only
          omega
      · refine ⟨Or.inr ⟨by simp [run_accelMode, hm], by simpa [run_sp] using h1,
          by simpa [run_sp] using h2⟩, s.sp, h1, h2, by simp [run_log]⟩
      · exact ⟨Or.inl rfl, s.sp, h1, h2, rfl⟩

/-- Counterexample to C3 as stated: polling accelerate(99, 100, 10) from a
fresh motor to completion (explicit speed arguments within 0..100) makes the
engine invoke run with speed 101 on the completing call. -/
theorem accelerate_commands_speed101 :
    Event.runEv 101 ∈ (pollAccel (init 0) [0, 11, 22, 33] 99 100 10).log := by
  decide

/-- C3 amended (claim theorem): in an increasing accelerate cycle with
endpoints a < b, every speed the engine passes to run lies between a and
b + 1 — in particular accelerate(0, 100, msWait) commands speeds in 0..101,
exceeding 100 by exactly one on the completing call. -/
theorem pollAccel_speeds_bounded (a b w : ℤ) (ts : List ℤ) (s : MotorState)
    (hab : a < b) (hinv : rampInv a b s)
    (hlog : rampLogOk a (b + 1) s.log = true) :
    rampLogOk a (b + 1) (pollAccel s ts a b w).log = true := by
  induction ts generalizing s with
  | nil => simpa [pollAccel] using hlog
  | cons t rest ih =>
    obtain ⟨hinv2, v, hv1, hv2, hlog2⟩ := accelerate_preserves_rampInv a b w t s hab hinv
    exact ih _ hinv2 (by rw [hlog2]; simp [rampLogOk, hv1, hv2, hlog])

/-- Witness for C3 amended at the counterexample run itself: all speeds
commanded while polling accelerate(99, 100, 10) to completion lie between
99 and 101. -/
theorem pollAccel_speeds_bounded_witness :
    rampLogOk 99 (100 + 1) (pollAccel (init 0) [0, 11, 22, 33] 99 100 10).log = true :=
  pollAccel_speeds_bounded 99 100 10 [0, 11, 22, 33] (init 0) (by decide)
    (Or.inl (by decide)) (by decide)

/-- C2: the source computes elapsed time with plain subtraction, not with
wraparound-safe modular subtraction. With the 30-bit MicroPython tick
counter, take an anchor reading 2^30 - 100 (just before the counter wraps)
and a later reading 50: the true modular distance is 150 ms, which exceeds
the 100 ms bound, so a wraparound-safe comparison would fire; but runFor
still returns false, waitFor still returns false, and accelerate does not
step the ramp speed. The timing decision is corrupted exactly as the claim
says it must not be. -/
theorem plain_subtraction_not_wraparound_safe :
    ((50 - (2 ^ 30 - 100) : ℤ) % 2 ^ 30 = 150 ∧ ((150 : ℤ) > 100))
    ∧ (runFor wrapAnchorState 50 30 100).2 = false
    ∧ (waitFor wrapAnchorState 50 100).2 = false
    ∧ (accelerate wrapAnchorRampState 50 0 10 100).1.sp = 5 := by
  exact ⟨⟨by decide, by decide⟩, by decide, by decide, by decide⟩

/-- Evaluation form of ratTrunc on nonnegative arguments: plain floor. -/
theorem ratTrunc_of_nonneg {y : ℚ} (h : 0 ≤ y) : ratTrunc y = ⌊y⌋ := if_pos h

/-- Evaluation form of ratTrunc on negative arguments: the negated floor of
the negation (truncation toward zero). -/
theorem ratTrunc_of_neg {y : ℚ} (h : ¬0 ≤ y) : ratTrunc y = -⌊-y⌋ := by
  unfold ratTrunc
  rw [if_neg h, Int.floor_neg, neg_neg]

/-- ratTrunc is monotone. -/
theorem ratTrunc_mono {x y : ℚ} (h : x ≤ y) : ratTrunc x ≤ ratTrunc y := by
  by_cases hx : 0 ≤ x <;> by_cases hy : 0 ≤ y
  · simp only [ratTrunc, if_pos hx, if_pos hy]
    exact Int.floor_le_floor h
  · exact absurd (hx.trans h) hy
  · simp only [ratTrunc, if_neg hx, if_pos hy]
    exact le_trans (Int.ceil_le.mpr (by exact_mod_cast le_of_not_le hx))
      (Int.floor_nonneg.mpr hy)
  · simp only [ratTrunc, if_neg hx, if_neg hy]
    exact Int.ceil_le_ceil h

/-- Counterexample to C7 as stated: at x = -10 the source map truncates
toward zero and yields -101, while round-half-up of m * x + q (the value the
claim prescribes, computed by specMap) is -102. -/
theorem map_differs_from_round_half_up :
    map (-10) 0 100 0 1023 = -101 ∧ specMap (-10) 0 100 0 1023 = -102 := by
  constructor
  · unfold map
    rw [ratTrunc_of_neg (by norm_num)]
    norm_num
  · unfold specMap
    norm_num

/-- C7 amended: map computes trunc(m * x + q + 1/2), truncation toward zero
after adding one half, which agrees with round-half-up of m * x + q whenever
the rounded value is nonnegative; in particular map(0,0,100,0,1023) = 0,
map(100,0,100,0,1023) = 1023 and map(50,0,100,0,1023) = 512. -/
theorem map_round_half_up_on_nonneg (x inMin inMax outMin outMax : ℤ)
    (h : 0 ≤ specMap x inMin inMax outMin outMax) :
    map x inMin inMax outMin outMax = specMap x inMin inMax outMin outMax
    ∧ map 0 0 100 0 1023 = 0 ∧ map 100 0 100 0 1023 = 1023
    ∧ map 50 0 100 0 1023 = 512 := by
  refine ⟨?_, ?_, ?_, ?_⟩
  · unfold map specMap at *
    exact (ratTrunc_of_nonneg (Int.floor_nonneg.mp h)).trans rfl
  · unfold map
    rw [ratTrunc_of_nonneg (by norm_num)]
    norm_num
  · unfold map
    rw [ratTrunc_of_nonneg (by norm_num)]
    norm_num
  · unfold map
    rw [ratTrunc_of_nonneg (by norm_num)]
    norm_num

/-- Witness for C7 amended at x = 50: the nonnegativity hypothesis holds and
map agrees with the round-half-up value there. -/
theorem map_round_half_up_on_nonneg_witness :
    map 50 0 100 0 1023 = specMap 50 0 100 0 1023 :=
  (map_round_half_up_on_nonneg 50 0 100 0 1023 (by unfold specMap; norm_num)).1

/-- Counterexample to C8 as stated: with outMax = 1023 at least outMin = 0
but a reversed input range (inMin = 100 above inMax = 0), map is strictly
decreasing in its first argument, so outMax at least outMin alone does not
give monotonicity. -/
theorem map_not_monotone_on_reversed_input_range :
    (0 : ℤ) ≤ 1023 ∧ map 1 100 0 0 1023 < map 0 100 0 0 1023 := by
  refine ⟨by norm_num, ?_⟩
  have h1 : map 1 100 0 0 1023 = 1013 := by
    unfold map
    rw [ratTrunc_of_nonneg (by norm_num)]
    norm_num
  have h0 : map 0 100 0 0 1023 = 1023 := by
    unfold map
    rw [ratTrunc_of_nonneg (by norm_num)]
    norm_num
  rw [h0, h1]
  norm_num

/-- C8 amended: for every speed in 0..100 and every duty ceiling
D = 2^r - 1, map(speed, 0, 100, 0, D) lies in 0..D; and map is monotone
non-decreasing in its first argument whenever outMax is at least outMin and
additionally inMin is below inMax (the counterexample forces the added
input-range condition). -/
theorem map_range_and_monotone (r : ℕ) (spd x y inMin inMax outMin outMax : ℤ)
    (hs0 : 0 ≤ spd) (hs1 : spd ≤ 100)
    (hin : inMin < inMax) (hout : outMin ≤ outMax) (hxy : x ≤ y) :
    (0 ≤ map spd 0 100 0 (2 ^ r - 1) ∧ map spd 0 100 0 (2 ^ r - 1) ≤ 2 ^ r - 1)
    ∧ map x inMin inMax outMin outMax ≤ map y inMin inMax outMin outMax := by
  have hD : (0 : ℤ) ≤ 2 ^ r - 1 := by
    have : (0 : ℤ) < 2 ^ r := by positivity
    omega
  constructor
  · unfold map
    have hDq : (0 : ℚ) ≤ ((2 ^ r - 1 : ℤ) : ℚ) := by exact_mod_cast hD
    have hsq0 : (0 : ℚ) ≤ (spd : ℤ) := by exact_mod_cast hs0
    have hsq1 : ((spd : ℤ) : ℚ) ≤ 100 := by exact_mod_cast hs1
    have hq : ((2 ^ r - 1 : ℤ) : ℚ) - ((2 ^ r - 1 : ℤ) : ℚ) / 100 * 100 = 0 := by
      field_simp
    have harg0 : (0 : ℚ) ≤ ((2 ^ r - 1 : ℤ) : ℚ) / 100 * spd := by
      apply mul_nonneg (by positivity)
      exact_mod_cast hs0
    have hargD : ((2 ^ r - 1 : ℤ) : ℚ) / 100 * spd ≤ ((2 ^ r - 1 : ℤ) : ℚ) := by
      calc ((2 ^ r - 1 : ℤ) : ℚ) / 100 * spd
          ≤ ((2 ^ r - 1 : ℤ) : ℚ) / 100 * 100 := by
            apply mul_le_mul_of_nonneg_left _ (by positivity)
            exact_mod_cast hs1
        _ = ((2 ^ r - 1 : ℤ) : ℚ) := by field_simp
    rw [ratTrunc_of_nonneg (by push_cast at *; linarith)]
    constructor
    · apply Int.floor_nonneg.mpr
      push_cast at *
      linarith
    · have hle : ((2 ^ r - 1 : ℤ) : ℚ) / 100 * spd
          + (((2 ^ r - 1 : ℤ) : ℚ) - ((2 ^ r - 1 : ℤ) : ℚ) / 100 * 100) + 1/2
          ≤ ((2 ^ r - 1 : ℤ) : ℚ) + 1/2 := by linarith
      have hfl := Int.floor_le_floor hle
      have hc : ⌊((2 ^ r - 1 : ℤ) : ℚ) + 1/2⌋ = 2 ^ r - 1 := by
        rw [Int.floor_int_add]
        norm_num
      rw [hc] at hfl
      convert hfl using 2 <;> push_cast <;> ring
  · have hm : (0 : ℚ) ≤ ((outMax : ℤ) : ℚ) - ((outMin : ℤ) : ℚ) := by
      rw [sub_nonneg]
      exact_mod_cast hout
    have hd : (0 : ℚ) < ((inMax : ℤ) : ℚ) - ((inMin : ℤ) : ℚ) := by
      rw [sub_pos]
      exact_mod_cast hin
    unfold map
    apply ratTrunc_mono
    have hslope : (0 : ℚ) ≤ (((outMax : ℤ) : ℚ) - outMin) / (((inMax : ℤ) : ℚ) - inMin) :=
      div_nonneg hm (le_of_lt hd)
    have hxyq : ((x : ℤ) : ℚ) ≤ ((y : ℤ) : ℚ) := by exact_mod_cast hxy
    have := mul_le_mul_of_nonneg_left hxyq hslope
    linarith

/-- Witness for C8 amended at r = 10, speed 50 and the pair 0 below 1 on the
standard percentage-to-duty ranges. -/
theorem map_range_and_monotone_witness :
    (0 ≤ map 50 0 100 0 (2 ^ 10 - 1) ∧ map 50 0 100 0 (2 ^ 10 - 1) ≤ 2 ^ 10 - 1)
    ∧ map 0 0 100 0 1023 ≤ map 1 0 100 0 1023 :=
  map_range_and_monotone 10 50 0 1 0 100 0 1023 (by norm_num) (by norm_num)
    (by norm_num) (by norm_num) (by norm_num)

end DCmotor
